import Mathlib

/-!
Verification of the PMT (Program Map Table) decoding layer of an MPEG-2
transport-stream demultiplexer.

The authoritative source is `src/ts/pmt.rs` (`Pmt::read_from`,
`EsInfo::read_from`, `Descriptor::read_from`).  Parts of the repository that
`pmt.rs` depends on (`Psi::read_from`, `Pid::read_from`,
`StreamType::from_u8`) are not part of the available sources; those are
modelled from the specification and marked as such in their doc comments.

Byte streams are shallowly embedded as `List Nat` (each element a byte
value), readers as explicit state passing, and fallible parsing as
`Except ErrorKind`.
-/

/-- Error kinds of the demultiplexer, as listed in the specification's
error-handling design (section 7). -/
inductive ErrorKind where
  | truncated
  | syncByteMismatch
  | invalidInput
  | unsupported
  | continuityError
deriving DecidableEq, Repr

/-- Packet identifier: a 13-bit unsigned integer. -/
structure Pid where
  as_u16 : Nat
deriving DecidableEq, Repr

/-- Modelled from the spec: `ts::Pid::read_from` is not under `src/`.  A Pid
is a 13-bit unsigned integer read from a 16-bit big-endian field; the low 13
bits are kept (section 3 data model: "Pid: 13-bit unsigned integer
(0-8191)").  A source that ends mid-field is `Truncated`. -/
def Pid.read_from : List Nat → Except ErrorKind (Pid × List Nat)
  | b0 :: b1 :: rest => .ok (⟨(b0 * 256 + b1) % 8192⟩, rest)
  | _ => .error .truncated

/-- Modelled from the spec: the `es::StreamType` enumeration is not under
`src/`.  The spec requires "closed enumerations with an explicit fallible
conversion from the raw byte, never a silent default" over the standard
stream-type registry. -/
inductive StreamType where
  | mpeg1Video
  | mpeg2Video
  | mpeg1Audio
  | mpeg2Audio
  | privateSections
  | privateData
  | adtsAac
  | latmAac
  | h264
  | h265
deriving DecidableEq, Repr

/-- Byte values of the standard stream-type registry that the closed
enumeration `StreamType` covers. -/
def knownStreamTypeBytes : List Nat := [1, 2, 3, 4, 5, 6, 15, 17, 27, 36]

/-- Modelled from the spec: `StreamType::from_u8` is not under `src/`.
Unknown stream-type bytes are `InvalidInput`, never silently defaulted
(spec sections 4.3 and 9). -/
def StreamType.from_u8 : Nat → Except ErrorKind StreamType
  | 1 => .ok .mpeg1Video
  | 2 => .ok .mpeg2Video
  | 3 => .ok .mpeg1Audio
  | 4 => .ok .mpeg2Audio
  | 5 => .ok .privateSections
  | 6 => .ok .privateData
  | 15 => .ok .adtsAac
  | 17 => .ok .latmAac
  | 27 => .ok .h264
  | 36 => .ok .h265
  | _ => .error .invalidInput

/-- Program or elementary stream descriptor (`Descriptor` in `pmt.rs`). -/
structure Descriptor where
  tag : Nat
  data : List Nat
deriving DecidableEq, Repr

/-- Elementary stream information (`EsInfo` in `pmt.rs`). -/
structure EsInfo where
  stream_type : StreamType
  elementary_pid : Pid
  descriptors : List Descriptor
deriving DecidableEq, Repr

/-- Program Map Table (`Pmt` in `pmt.rs`).  `version_number` is a 5-bit
value, kept as a plain `Nat` here. -/
structure Pmt where
  program_num : Nat
  pcr_pid : Option Pid
  version_number : Nat
  table : List EsInfo
deriving DecidableEq, Repr

/-- Syntax section of a PSI table (spec section 3 data model). -/
structure PsiTableSyntax where
  table_id_extension : Nat
  version_number : Nat
  current_next_indicator : Bool
  section_number : Nat
  last_section_number : Nat
  table_data : List Nat
deriving DecidableEq, Repr

/-- Header of a PSI table section (spec section 3 data model). -/
structure PsiTableHeader where
  table_id : Nat
  section_length : Nat
  private_bit : Bool
deriving DecidableEq, Repr

/-- One PSI table section: header plus optional syntax section. -/
structure PsiTable where
  header : PsiTableHeader
  tableSyntax : Option PsiTableSyntax
deriving DecidableEq, Repr

/-- PSI section group: zero or more table sections (spec section 3). -/
structure Psi where
  tables : List PsiTable
deriving DecidableEq, Repr

/-- State of a byte reader limited to a declared number of bytes, as
produced by Rust's `Read::take`: `limit` is the number of bytes the bound
still allows, `data` the bytes of the underlying reader. -/
structure TakeReader where
  limit : Nat
  data : List Nat
deriving DecidableEq, Repr

/-- Read one byte through the bound: exhausting either the bound or the
underlying source is an end-of-file, reported as `Truncated`. -/
def TakeReader.readU8 : TakeReader → Except ErrorKind (Nat × TakeReader)
  | ⟨n + 1, b :: rest⟩ => .ok (b, ⟨n, rest⟩)
  | _ => .error .truncated

/-- Read exactly `n` bytes through the bound (Rust's `read_exact`): if
fewer than `n` bytes are available the read fails with `Truncated`. -/
def TakeReader.readExact (tr : TakeReader) (n : Nat) :
    Except ErrorKind (List Nat × TakeReader) :=
  if n ≤ tr.limit ∧ n ≤ tr.data.length then
    .ok (tr.data.take n, ⟨tr.limit - n, tr.data.drop n⟩)
  else
    .error .truncated

/-- `Descriptor::read_from` (`pmt.rs` lines 134-140): one tag byte, one
length byte, then exactly `len` raw data bytes. -/
def Descriptor.read_from (tr : TakeReader) :
    Except ErrorKind (Descriptor × TakeReader) :=
  match tr.readU8 with
  | .error e => .error e
  | .ok (tag, tr1) =>
    match tr1.readU8 with
    | .error e => .error e
    | .ok (len, tr2) =>
      match tr2.readExact len with
      | .error e => .error e
      | .ok (data, tr3) => .ok (⟨tag, data⟩, tr3)

theorem Descriptor.read_from_ok {tr tr' : TakeReader} {d : Descriptor}
    (h : Descriptor.read_from tr = .ok (d, tr')) :
    ∃ len rest2,
      tr.data = d.tag :: len :: rest2 ∧ d.data = rest2.take len ∧
      d.data.length = len ∧ len + 2 ≤ tr.limit ∧ len ≤ rest2.length ∧
      tr' = ⟨tr.limit - (2 + len), rest2.drop len⟩ := by
  obtain ⟨l0, d0⟩ := tr
  match l0, d0 with
  | 0, _ => simp [Descriptor.read_from, TakeReader.readU8] at h
  | _ + 1, [] => simp [Descriptor.read_from, TakeReader.readU8] at h
  | 1, b :: rest => simp [Descriptor.read_from, TakeReader.readU8] at h
  | m + 2, [b] => simp [Descriptor.read_from, TakeReader.readU8] at h
  | m + 2, b :: c :: rest2 =>
    by_cases hle : c ≤ m ∧ c ≤ rest2.length
    · simp only [Descriptor.read_from, TakeReader.readU8, TakeReader.readExact,
        if_pos hle, Except.ok.injEq, Prod.mk.injEq] at h
      obtain ⟨rfl, rfl⟩ := h
      refine ⟨c, rest2, rfl, rfl, ?_, ?_, ?_, ?_⟩
      · simp; omega
      · simp; omega
      · exact hle.2
      · simp
        omega
    · simp only [Descriptor.read_from, TakeReader.readU8, TakeReader.readExact,
        if_neg hle] at h
      exact absurd h (by simp)

theorem Descriptor.read_from_limit_lt {tr tr' : TakeReader} {d : Descriptor}
    (h : Descriptor.read_from tr = .ok (d, tr')) : tr'.limit < tr.limit := by
  obtain ⟨len, rest2, -, -, -, hlim, -, rfl⟩ := Descriptor.read_from_ok h
  simp
  omega

/-- Descriptor loop of `EsInfo::read_from` (`pmt.rs` lines 111-115): read
descriptors through the bounded reader while the bound still allows bytes.
The loop exits only once the bound is exactly exhausted, which is why the
residual re-check of `pmt.rs` line 116 can never fail. -/
def readDescriptors (tr : TakeReader) :
    Except ErrorKind (List Descriptor × TakeReader) :=
  if tr.limit = 0 then .ok ([], tr)
  else
    match hd : Descriptor.read_from tr with
    | .error e => .error e
    | .ok (d, tr1) =>
      match readDescriptors tr1 with
      | .error e => .error e
      | .ok (ds, tr2) => .ok (d :: ds, tr2)
termination_by tr.limit
decreasing_by exact Descriptor.read_from_limit_lt hd

theorem readDescriptors_zero {tr : TakeReader} (hlim : tr.limit = 0) :
    readDescriptors tr = .ok ([], tr) := by
  rw [readDescriptors, if_pos hlim]

theorem readDescriptors_err {tr : TakeReader} {e : ErrorKind}
    (hlim : tr.limit ≠ 0) (hd : Descriptor.read_from tr = .error e) :
    readDescriptors tr = .error e := by
  rw [readDescriptors, if_neg hlim]
  split
  · rename_i e' heq
    rw [hd] at heq
    simp only [Except.error.injEq] at heq
    rw [heq]
  · rename_i d' tr1' heq
    rw [hd] at heq
    exact absurd heq (by simp)

theorem readDescriptors_cons_ok {tr tr1 tr2 : TakeReader} {d : Descriptor}
    {ds : List Descriptor}
    (hlim : tr.limit ≠ 0) (hd : Descriptor.read_from tr = .ok (d, tr1))
    (hrec : readDescriptors tr1 = .ok (ds, tr2)) :
    readDescriptors tr = .ok (d :: ds, tr2) := by
  rw [readDescriptors, if_neg hlim]
  split
  · rename_i e' heq
    rw [hd] at heq
    exact absurd heq (by simp)
  · rename_i d' tr1' heq
    rw [hd] at heq
    simp only [Except.ok.injEq, Prod.mk.injEq] at heq
    obtain ⟨rfl, rfl⟩ := heq
    rw [hrec]

theorem readDescriptors_cons_err {tr tr1 : TakeReader} {d : Descriptor}
    {e : ErrorKind}
    (hlim : tr.limit ≠ 0) (hd : Descriptor.read_from tr = .ok (d, tr1))
    (hrec : readDescriptors tr1 = .error e) :
    readDescriptors tr = .error e := by
  rw [readDescriptors, if_neg hlim]
  split
  · rename_i e' heq
    rw [hd] at heq
    exact absurd heq (by simp)
  · rename_i d' tr1' heq
    rw [hd] at heq
    simp only [Except.ok.injEq, Prod.mk.injEq] at heq
    obtain ⟨rfl, rfl⟩ := heq
    rw [hrec]

/-- Encoded size of a parsed descriptor: tag byte, length byte, data. -/
def descriptorSize (d : Descriptor) : Nat := 2 + d.data.length

theorem readDescriptors_ok {tr tr' : TakeReader} {ds : List Descriptor}
    (h : readDescriptors tr = .ok (ds, tr')) :
    tr'.limit = 0 ∧ tr.limit ≤ tr.data.length ∧
    tr'.data = tr.data.drop tr.limit ∧
    (ds.map descriptorSize).sum = tr.limit := by
  induction tr using readDescriptors.induct generalizing ds with
  | case1 x hlim =>
    rw [readDescriptors_zero hlim] at h
    simp only [Except.ok.injEq, Prod.mk.injEq] at h
    obtain ⟨rfl, rfl⟩ := h
    simp [hlim]
  | case2 x hlim e herr =>
    rw [readDescriptors_err hlim herr] at h
    exact absurd h (by simp)
  | case3 x hlim d tr1 hok e hrec ih =>
    rw [readDescriptors_cons_err hlim hok hrec] at h
    exact absurd h (by simp)
  | case4 x hlim d tr1 hok ds1 tr2 hrec ih =>
    rw [readDescriptors_cons_ok hlim hok hrec] at h
    simp only [Except.ok.injEq, Prod.mk.injEq] at h
    obtain ⟨rfl, rfl⟩ := h
    obtain ⟨h1, h2, h3, h4⟩ := ih hrec
    obtain ⟨len, rest2, hdata, hdd, hdl, hlim2, hlr, rfl⟩ :=
      Descriptor.read_from_ok hok
    have h2' : x.limit - (2 + len) ≤ rest2.length - len := by simpa using h2
    have h4' : (ds1.map descriptorSize).sum = x.limit - (2 + len) := by
      simpa using h4
    refine ⟨h1, ?_, ?_, ?_⟩
    · rw [hdata]
      simp
      omega
    · rw [h3, hdata]
      obtain ⟨k, hk⟩ : ∃ k, x.limit = k + 2 := ⟨x.limit - 2, by omega⟩
      rw [hk]
      simp only [List.drop_succ_cons, List.drop_drop]
      congr 1
      omega
    · simp only [List.map_cons, List.sum_cons, descriptorSize, hdl, h4']
      omega

theorem readDescriptors_deficit {tr : TakeReader}
    (h : tr.data.length < tr.limit) :
    readDescriptors tr = .error .truncated := by
  induction tr using readDescriptors.induct with
  | case1 x hlim => omega
  | case2 x hlim e herr =>
    have : e = .truncated := by
      obtain ⟨l0, d0⟩ := x
      match l0, d0, hlim, h, herr with
      | 0, _, hlim, _, _ => exact absurd rfl hlim
      | l0 + 1, [], _, _, herr =>
        simp only [Descriptor.read_from, TakeReader.readU8] at herr
        simp only [Except.error.injEq] at herr
        exact herr.symm
      | 1, b :: rest, _, _, herr =>
        simp only [Descriptor.read_from, TakeReader.readU8] at herr
        simp only [Except.error.injEq] at herr
        exact herr.symm
      | m + 2, [b], _, _, herr =>
        simp only [Descriptor.read_from, TakeReader.readU8] at herr
        simp only [Except.error.injEq] at herr
        exact herr.symm
      | m + 2, b :: c :: rest2, _, _, herr =>
        by_cases hle : c ≤ m ∧ c ≤ rest2.length
        · simp only [Descriptor.read_from, TakeReader.readU8,
            TakeReader.readExact, if_pos hle] at herr
          exact absurd herr (by simp)
        · simp only [Descriptor.read_from, TakeReader.readU8,
            TakeReader.readExact, if_neg hle] at herr
          simp only [Except.error.injEq] at herr
          exact herr.symm
    rw [this] at herr
    exact readDescriptors_err hlim herr
  | case3 x hlim d tr1 hok e hrec ih =>
    obtain ⟨len, rest2, hdata, hdd, hdl, hlim2, hlr, rfl⟩ :=
      Descriptor.read_from_ok hok
    have hd1 : rest2.length + 2 = x.data.length := by rw [hdata]; simp
    have := ih (by simp; omega)
    rw [this] at hrec
    simp only [Except.error.injEq] at hrec
    subst hrec
    exact readDescriptors_cons_err hlim hok this
  | case4 x hlim d tr1 hok ds1 tr2 hrec ih =>
    obtain ⟨len, rest2, hdata, hdd, hdl, hlim2, hlr, rfl⟩ :=
      Descriptor.read_from_ok hok
    have hd1 : rest2.length + 2 = x.data.length := by rw [hdata]; simp
    have := ih (by simp; omega)
    rw [this] at hrec
    exact absurd hrec (by simp)

/-- `EsInfo::read_from` (`pmt.rs` lines 91-123): stream-type byte mapped
through the registry, elementary PID, ES-info length field with reserved
and unused bit checks (`track_assert_eq!` failures are `InvalidInput`),
then descriptors bounded by the 10-bit length. -/
def EsInfo.read_from (bytes : List Nat) :
    Except ErrorKind (EsInfo × List Nat) :=
  match bytes with
  | [] => .error .truncated
  | st :: rest =>
    match StreamType.from_u8 st with
    | .error e => .error e
    | .ok stream_type =>
      match Pid.read_from rest with
      | .error e => .error e
      | .ok (elementary_pid, rest1) =>
        match rest1 with
        | hi :: lo :: rest2 =>
          if (hi * 256 + lo) &&& 0xF000 = 0xF000 then
            if (hi * 256 + lo) &&& 0x0C00 = 0 then
              match readDescriptors ⟨(hi * 256 + lo) &&& 0x03FF, rest2⟩ with
              | .error e => .error e
              | .ok (descriptors, tr') =>
                .ok (⟨stream_type, elementary_pid, descriptors⟩, tr'.data)
            else .error .invalidInput
          else .error .invalidInput
        | _ => .error .truncated

theorem EsInfo.read_from_length_lt {bytes rest : List Nat} {e : EsInfo}
    (h : EsInfo.read_from bytes = .ok (e, rest)) :
    rest.length < bytes.length := by
  cases bytes with
  | nil => simp [EsInfo.read_from] at h
  | cons st rest0 =>
    rw [EsInfo.read_from] at h
    cases hst : StreamType.from_u8 st with
    | error e' => rw [hst] at h; simp at h
    | ok stype =>
      rw [hst] at h
      cases rest0 with
      | nil => simp [Pid.read_from] at h
      | cons p1 r0 =>
        cases r0 with
        | nil => simp [Pid.read_from] at h
        | cons p2 rest1 =>
          simp only [Pid.read_from] at h
          cases rest1 with
          | nil => simp at h
          | cons hi r1 =>
            cases r1 with
            | nil => simp at h
            | cons lo rest2 =>
              split at h
              case h_2 hcon => exact (hcon hi lo rest2 rfl).elim
              case h_1 b0 b1 r heq =>
              cases heq
              split at h
              case isFalse => simp at h
              case isTrue hres =>
              split at h
              case isFalse => simp at h
              case isTrue hunused =>
              cases hds : readDescriptors ⟨(hi * 256 + lo) &&& 0x03FF, rest2⟩ with
              | error e' => rw [hds] at h; simp at h
              | ok p =>
                obtain ⟨ds, tr'⟩ := p
                rw [hds] at h
                simp only [Except.ok.injEq, Prod.mk.injEq] at h
                obtain ⟨rfl, rfl⟩ := h
                obtain ⟨-, h2, h3, -⟩ := readDescriptors_ok hds
                simp only at h2 h3
                rw [h3]
                simp
                omega

/-- Elementary-stream loop of `Pmt::read_from` (`pmt.rs` lines 66-69):
`EsInfo` entries are consumed until the section data is exhausted. -/
def readEsInfos (bytes : List Nat) : Except ErrorKind (List EsInfo) :=
  match bytes with
  | [] => .ok []
  | b :: rest =>
    match he : EsInfo.read_from (b :: rest) with
    | .error e => .error e
    | .ok (e, rest') =>
      match readEsInfos rest' with
      | .error err => .error err
      | .ok es => .ok (e :: es)
termination_by bytes.length
decreasing_by exact EsInfo.read_from_length_lt he

theorem readEsInfos_nil : readEsInfos [] = .ok [] := by
  rw [readEsInfos]

theorem readEsInfos_err {b : Nat} {rest : List Nat} {e : ErrorKind}
    (he : EsInfo.read_from (b :: rest) = .error e) :
    readEsInfos (b :: rest) = .error e := by
  rw [readEsInfos]
  split
  · rename_i e' heq
    rw [he] at heq
    simp only [Except.error.injEq] at heq
    rw [heq]
  · rename_i es' rest' heq
    rw [he] at heq
    exact absurd heq (by simp)

theorem readEsInfos_cons_ok {b : Nat} {rest rest' : List Nat} {e : EsInfo}
    {es : List EsInfo}
    (he : EsInfo.read_from (b :: rest) = .ok (e, rest'))
    (hrec : readEsInfos rest' = .ok es) :
    readEsInfos (b :: rest) = .ok (e :: es) := by
  rw [readEsInfos]
  split
  · rename_i e' heq
    rw [he] at heq
    exact absurd heq (by simp)
  · rename_i e1 rest1 heq
    rw [he] at heq
    simp only [Except.ok.injEq, Prod.mk.injEq] at heq
    obtain ⟨rfl, rfl⟩ := heq
    rw [hrec]

/-- Decoding stage of `Pmt::read_from` operating on the reassembled PSI
value (`pmt.rs` lines 29-76): section-count, table-id, private-bit and
syntax-section checks, PCR PID with the all-ones sentinel, the
program-info length field with reserved/unused-bit checks and the
requirement that it be zero, then the `EsInfo` list.  In the source this
code follows the `Psi::read_from` call inside `Pmt::read_from`. -/
def Pmt.read_fromPsi (psi : Psi) : Except ErrorKind Pmt :=
  match psi.tables with
  | [table] =>
    if table.header.table_id = 2 then
      if table.header.private_bit then .error .invalidInput
      else
        match table.tableSyntax with
        | none => .error .invalidInput
        | some s =>
          if s.section_number = 0 then
            if s.last_section_number = 0 then
              if s.current_next_indicator then
                match Pid.read_from s.table_data with
                | .error e => .error e
                | .ok (pcr, rest) =>
                  match rest with
                  | hi :: lo :: rest2 =>
                    if (hi * 256 + lo) &&& 0xF000 = 0xF000 then
                      if (hi * 256 + lo) &&& 0x0C00 = 0 then
                        if (hi * 256 + lo) &&& 0x03FF = 0 then
                          match readEsInfos rest2 with
                          | .error e => .error e
                          | .ok table =>
                            .ok ⟨s.table_id_extension,
                              if pcr.as_u16 = 0x1FFF then none else some pcr,
                              s.version_number, table⟩
                        else .error .unsupported
                      else .error .invalidInput
                    else .error .invalidInput
                  | _ => .error .truncated
              else .error .invalidInput
            else .error .invalidInput
          else .error .invalidInput
    else .error .invalidInput
  | _ => .error .invalidInput

/-- One round of the CRC-32/MPEG-2 checksum: shift left by one and fold in
the polynomial when the top bit was set, all modulo 2^32. -/
def crc32Round (c : Nat) : Nat :=
  if 2147483648 ≤ c then ((c * 2) % 4294967296) ^^^ 0x04C11DB7
  else (c * 2) % 4294967296

/-- Fold one byte into the CRC-32/MPEG-2 state. -/
def crc32Byte (c b : Nat) : Nat :=
  crc32Round^[8] ((c ^^^ (b % 256) * 16777216) % 4294967296)

/-- Modelled from the spec: the PSI section checksum is not under `src/`.
CRC-32/MPEG-2 over a byte sequence (all-ones initial state, polynomial
0x04C11DB7, no reflection, no final xor); the spec only requires that the
"checksum recomputed over the section matches the trailing CRC". -/
def mpegCrc32 (bytes : List Nat) : Nat :=
  bytes.foldl crc32Byte 4294967295

/-- Big-endian byte serialisation of a 32-bit checksum value. -/
def crc4 (c : Nat) : List Nat :=
  [c / 16777216 % 256, c / 65536 % 256, c / 256 % 256, c % 256]

/-- Modelled from the spec: `Psi::read_from` is not under `src/`.  Parse
one PSI table section from reassembled section bytes (spec sections 3 and
4.2): table id, a 16-bit field holding the section-syntax indicator, the
private bit, two reserved bits that must be `11`, and a 12-bit section
length whose top two bits must be `0`; when the syntax indicator is set, a
syntax-section header (table-id extension, two reserved bits that must be
`11`, 5-bit version, current-next indicator, section number, last section
number), the table data, and a trailing CRC that must match the checksum
recomputed over the section.  Reserved-bit deviations are `InvalidInput`,
a source ending mid-section is `Truncated`.  TS-packet framing and
pointer-field handling happen upstream of this layer and are not part of
the claims. -/
def readSection (bytes : List Nat) :
    Except ErrorKind (PsiTable × List Nat) :=
  match bytes with
  | tid :: b1 :: b2 :: rest =>
    if (b1 * 256 + b2) / 4096 % 4 = 3 then
      if (b1 * 256 + b2) / 1024 % 4 = 0 then
        if rest.length < (b1 * 256 + b2) % 1024 then .error .truncated
        else if (b1 * 256 + b2) / 32768 = 1 then
          if (b1 * 256 + b2) % 1024 < 9 then .error .invalidInput
          else
            match rest with
            | e1 :: e2 :: b5 :: sn :: lsn :: rest2 =>
              if b5 / 64 = 3 then
                match rest2.drop ((b1 * 256 + b2) % 1024 - 9) with
                | c1 :: c2 :: c3 :: c4 :: after =>
                  if mpegCrc32 (tid :: b1 :: b2 :: e1 :: e2 :: b5 :: sn ::
                      lsn :: rest2.take ((b1 * 256 + b2) % 1024 - 9)) =
                      ((c1 * 256 + c2) * 256 + c3) * 256 + c4 then
                    .ok (⟨⟨tid, (b1 * 256 + b2) % 1024,
                          (b1 * 256 + b2) / 16384 % 2 == 1⟩,
                        some ⟨e1 * 256 + e2, b5 / 2 % 32, b5 % 2 == 1, sn, lsn,
                          rest2.take ((b1 * 256 + b2) % 1024 - 9)⟩⟩,
                      after)
                  else .error .invalidInput
                | _ => .error .truncated
              else .error .invalidInput
            | _ => .error .truncated
        else
          .ok (⟨⟨tid, (b1 * 256 + b2) % 1024,
                (b1 * 256 + b2) / 16384 % 2 == 1⟩, none⟩,
            rest.drop ((b1 * 256 + b2) % 1024))
      else .error .invalidInput
    else .error .invalidInput
  | _ => .error .truncated

theorem readSection_length_lt {bytes rest : List Nat} {t : PsiTable}
    (h : readSection bytes = .ok (t, rest)) :
    rest.length < bytes.length := by
  match bytes with
  | [] => exact absurd h (by simp [readSection])
  | [tid] => exact absurd h (by simp [readSection])
  | [tid, b1] => exact absurd h (by simp [readSection])
  | tid :: b1 :: b2 :: rest0 =>
    simp only [readSection] at h
    split at h
    case isFalse => exact absurd h (by simp)
    case isTrue hres =>
    split at h
    case isFalse => exact absurd h (by simp)
    case isTrue hzero =>
    split at h
    case isTrue => exact absurd h (by simp)
    case isFalse hlen =>
    split at h
    case isFalse =>
      simp only [Except.ok.injEq, Prod.mk.injEq] at h
      obtain ⟨rfl, rfl⟩ := h
      simp
      omega
    case isTrue hsyn =>
    split at h
    case isTrue => exact absurd h (by simp)
    case isFalse hsl =>
    rcases rest0 with _ | ⟨e1, _ | ⟨e2, _ | ⟨b5, _ | ⟨sn, _ | ⟨lsn, rest2⟩⟩⟩⟩⟩ <;>
      simp only [] at h
    all_goals try exact absurd h (by simp)
    split at h
    case isFalse => exact absurd h (by simp)
    case isTrue hb5 =>
    split at h
    case h_2 => exact absurd h (by simp)
    case h_1 c1 c2 c3 c4 after hdrop =>
    split at h
    case isFalse => exact absurd h (by simp)
    case isTrue hcrc =>
    simp only [Except.ok.injEq, Prod.mk.injEq] at h
    obtain ⟨rfl, rfl⟩ := h
    have hd := congrArg List.length hdrop
    simp at hd ⊢
    omega

/-- Modelled from the spec: section loop of `Psi::read_from` (not under
`src/`).  A PSI section group holds "zero-or-more syntax sections"
(spec section 3); sections are parsed until the reassembled bytes are
exhausted. -/
def readTables (bytes : List Nat) : Except ErrorKind (List PsiTable) :=
  match bytes with
  | [] => .ok []
  | b :: rest =>
    match hs : readSection (b :: rest) with
    | .error e => .error e
    | .ok (t, rest') =>
      match readTables rest' with
      | .error e => .error e
      | .ok ts => .ok (t :: ts)
termination_by bytes.length
decreasing_by exact readSection_length_lt hs

theorem readTables_nil : readTables [] = .ok [] := by
  rw [readTables]

theorem readTables_cons_ok {b : Nat} {rest rest' : List Nat} {t : PsiTable}
    {ts : List PsiTable}
    (hs : readSection (b :: rest) = .ok (t, rest'))
    (hrec : readTables rest' = .ok ts) :
    readTables (b :: rest) = .ok (t :: ts) := by
  rw [readTables]
  split
  · rename_i e' heq
    rw [hs] at heq
    exact absurd heq (by simp)
  · rename_i t1 rest1 heq
    rw [hs] at heq
    simp only [Except.ok.injEq, Prod.mk.injEq] at heq
    obtain ⟨rfl, rfl⟩ := heq
    rw [hrec]

/-- Modelled from the spec: `Psi::read_from` (not under `src/`) yields "a
fully owned Psi value" from the reassembled section bytes (spec
section 4.2). -/
def Psi.read_from (bytes : List Nat) : Except ErrorKind Psi :=
  match readTables bytes with
  | .error e => .error e
  | .ok ts => .ok ⟨ts⟩

/-- `Pmt::read_from` (`pmt.rs` lines 27-76): reassemble a PSI value via
`Psi::read_from` (line 28), then decode it. -/
def Pmt.read_from (bytes : List Nat) : Except ErrorKind Pmt :=
  match Psi.read_from bytes with
  | .error e => .error e
  | .ok psi => Pmt.read_fromPsi psi

theorem readTables_ok_single {bytes : List Nat} {t : PsiTable}
    (hs : readSection bytes = .ok (t, [])) :
    readTables bytes = .ok [t] := by
  match bytes with
  | [] => exact absurd hs (by simp [readSection])
  | b :: rest => exact readTables_cons_ok hs readTables_nil

/-- Table data of a PMT section carrying the PCR-PID sentinel, a zero
program-info length with correct reserved bits, and no ES entries. -/
def sentinelTableData : List Nat := [255, 255, 240, 0]

/-- A single-section PSI value with PMT table id, program number 7 and
version 3, with configurable indicator bits, section numbers and data. -/
def mkTestPsi (cni : Bool) (sn lsn : Nat) (tdata : List Nat) : Psi :=
  ⟨[⟨⟨2, 13, false⟩, some ⟨7, 3, cni, sn, lsn, tdata⟩⟩]⟩

/-- C5 (amended): for every PSI value whose number of syntax sections is
not exactly one, `Pmt::read_from` fails with `InvalidInput` (not
`Unsupported`) rather than decoding any of the sections. -/
theorem C5_multi_section_invalid_input (psi : Psi)
    (h : psi.tables.length ≠ 1) :
    Pmt.read_fromPsi psi = .error .invalidInput := by
  obtain ⟨tabs⟩ := psi
  rcases tabs with _ | ⟨t1, _ | ⟨t2, ts⟩⟩
  · rfl
  · exact absurd rfl h
  · rfl

theorem C5_multi_section_invalid_input_witness :
    (Psi.mk [⟨⟨2, 13, false⟩, some ⟨7, 3, true, 0, 0, sentinelTableData⟩⟩,
        ⟨⟨2, 13, false⟩, some ⟨8, 3, true, 0, 0, sentinelTableData⟩⟩]).tables.length ≠ 1 ∧
    Pmt.read_fromPsi
      (Psi.mk [⟨⟨2, 13, false⟩, some ⟨7, 3, true, 0, 0, sentinelTableData⟩⟩,
        ⟨⟨2, 13, false⟩, some ⟨8, 3, true, 0, 0, sentinelTableData⟩⟩]) =
      .error .invalidInput :=
  ⟨by decide,
    C5_multi_section_invalid_input
      (Psi.mk [⟨⟨2, 13, false⟩, some ⟨7, 3, true, 0, 0, sentinelTableData⟩⟩,
        ⟨⟨2, 13, false⟩, some ⟨8, 3, true, 0, 0, sentinelTableData⟩⟩])
      (by decide)⟩

/-- C5 counterexample: a PSI value with two fully valid PMT syntax
sections makes `Pmt::read_from` fail with `InvalidInput`, not with
`Unsupported` as the claim states. -/
theorem C5_counterexample :
    Pmt.read_fromPsi
      (Psi.mk [⟨⟨2, 13, false⟩, some ⟨7, 3, true, 0, 0, sentinelTableData⟩⟩,
        ⟨⟨2, 13, false⟩, some ⟨8, 3, true, 0, 0, sentinelTableData⟩⟩]) ≠
      .error .unsupported := by
  have h : Pmt.read_fromPsi
      (Psi.mk [⟨⟨2, 13, false⟩, some ⟨7, 3, true, 0, 0, sentinelTableData⟩⟩,
        ⟨⟨2, 13, false⟩, some ⟨8, 3, true, 0, 0, sentinelTableData⟩⟩]) =
      .error .invalidInput := rfl
  rw [h]
  simp

/-- C1 (amended): every PSI value containing a section whose syntax block
has `last_section_number > 0` makes `Pmt::read_from` return `InvalidInput`
(not `Unsupported`), and never a partial or incorrect `Pmt`. -/
theorem C1_last_section_number_invalid_input (psi : Psi) (t : PsiTable)
    (s : PsiTableSyntax) (ht : t ∈ psi.tables) (hsyn : t.tableSyntax = some s)
    (hlsn : 0 < s.last_section_number) :
    Pmt.read_fromPsi psi = .error .invalidInput := by
  obtain ⟨tabs⟩ := psi
  simp only at ht
  rcases tabs with _ | ⟨t1, _ | ⟨t2, ts⟩⟩
  · simp at ht
  · simp at ht
    subst ht
    simp only [Pmt.read_fromPsi]
    split
    case isFalse => rfl
    case isTrue htid =>
    split
    case isTrue => rfl
    case isFalse hpriv =>
    rw [hsyn]
    split
    case h_1 => rfl
    case h_2 s1 heq =>
    have hs1 : s1 = s := by
      have heq' : some s = some s1 := heq
      injection heq' with hh
      exact hh.symm
    subst hs1
    split
    case isFalse => rfl
    case isTrue hsn =>
    split
    case isTrue hl0 => omega
    case isFalse => rfl
  · rfl

theorem C1_last_section_number_invalid_input_witness :
    (⟨⟨2, 13, false⟩, some ⟨7, 3, true, 0, 1, sentinelTableData⟩⟩ : PsiTable) ∈
      (mkTestPsi true 0 1 sentinelTableData).tables ∧
    (⟨⟨2, 13, false⟩, some ⟨7, 3, true, 0, 1, sentinelTableData⟩⟩ :
      PsiTable).tableSyntax = some ⟨7, 3, true, 0, 1, sentinelTableData⟩ ∧
    0 < (⟨7, 3, true, 0, 1, sentinelTableData⟩ :
      PsiTableSyntax).last_section_number ∧
    Pmt.read_fromPsi (mkTestPsi true 0 1 sentinelTableData) =
      .error .invalidInput :=
  ⟨by decide, rfl, by decide,
    C1_last_section_number_invalid_input (mkTestPsi true 0 1 sentinelTableData)
      ⟨⟨2, 13, false⟩, some ⟨7, 3, true, 0, 1, sentinelTableData⟩⟩
      ⟨7, 3, true, 0, 1, sentinelTableData⟩ (by decide) rfl (by decide)⟩

/-- Append the CRC-32/MPEG-2 checksum of the section content, so that the
trailing CRC of the encoded section is correct by construction. -/
def withCrc (content : List Nat) : List Nat :=
  content ++ crc4 (mpegCrc32 content)

/-- Byte content (before the CRC) of a PMT section that is valid except
that its `last_section_number` byte is 1: table id 2, section length 18,
program number 1, version 0, current-next set, section number 0, PCR-PID
sentinel, zero program-info length, one H.264 entry with PID 0x100 and no
descriptors. -/
def c1SectionContent : List Nat :=
  [2, 176, 18, 0, 1, 193, 0, 1, 255, 255, 240, 0, 27, 225, 0, 240, 0]

set_option maxRecDepth 100000 in
/-- C1 counterexample: on a single-section PMT encoding with
`last_section_number = 1` (and a correct CRC), `Pmt::read_from` returns
`InvalidInput`, not `Unsupported` as the claim states. -/
theorem C1_counterexample :
    Pmt.read_from (withCrc c1SectionContent) ≠ .error .unsupported ∧
    Pmt.read_from (withCrc c1SectionContent) = .error .invalidInput := by
  have h1 : readSection (withCrc c1SectionContent) =
      .ok (⟨⟨2, 18, false⟩,
        some ⟨1, 0, true, 0, 1, [255, 255, 240, 0, 27, 225, 0, 240, 0]⟩⟩,
        []) := rfl
  have h2 := readTables_ok_single h1
  have h3 : Pmt.read_from (withCrc c1SectionContent) =
      .error .invalidInput := by
    simp only [Pmt.read_from, Psi.read_from, h2]
    rfl
  rw [h3]
  simp

/-- C10: an otherwise valid single-section PMT whose syntax block has
`current_next_indicator = false` makes `Pmt::read_from` return
`InvalidInput` (`pmt.rs` line 39); only sections marked as currently
applicable are decoded into a `Pmt`. -/
theorem C10_current_next_indicator_required :
    (∀ (psi : Psi) (t : PsiTable) (s : PsiTableSyntax),
      psi.tables = [t] → t.header.table_id = 2 →
      t.header.private_bit = false → t.tableSyntax = some s →
      s.section_number = 0 → s.last_section_number = 0 →
      s.current_next_indicator = false →
      Pmt.read_fromPsi psi = .error .invalidInput) ∧
    (∀ (psi : Psi) (t : PsiTable) (s : PsiTableSyntax) (pmt : Pmt),
      psi.tables = [t] → t.tableSyntax = some s →
      Pmt.read_fromPsi psi = .ok pmt →
      s.current_next_indicator = true) := by
  constructor
  · intro psi t s htabs htid hpriv hsyn hsn hlsn hcni
    obtain ⟨tabs⟩ := psi
    simp only at htabs
    subst htabs
    simp [Pmt.read_fromPsi, htid, hpriv, hsyn, hsn, hlsn, hcni]
  · intro psi t s pmt htabs hsyn h
    obtain ⟨tabs⟩ := psi
    simp only at htabs
    subst htabs
    simp only [Pmt.read_fromPsi] at h
    split at h
    case isFalse => exact absurd h (by simp)
    case isTrue htid =>
    split at h
    case isTrue => exact absurd h (by simp)
    case isFalse hpriv =>
    rw [hsyn] at h
    split at h
    case h_1 => exact absurd h (by simp)
    case h_2 s1 heq =>
    have hs1 : s1 = s := by
      have heq' : some s = some s1 := heq
      injection heq' with hh
      exact hh.symm
    subst hs1
    split at h
    case isFalse => exact absurd h (by simp)
    case isTrue hsn =>
    split at h
    case isFalse => exact absurd h (by simp)
    case isTrue hlsn =>
    split at h
    case isFalse hcni => exact absurd h (by simp)
    case isTrue hcni => exact hcni

theorem C10_current_next_indicator_required_witness :
    (mkTestPsi false 0 0 sentinelTableData).tables =
      [⟨⟨2, 13, false⟩, some ⟨7, 3, false, 0, 0, sentinelTableData⟩⟩] ∧
    Pmt.read_fromPsi (mkTestPsi false 0 0 sentinelTableData) =
      .error .invalidInput :=
  ⟨rfl,
    C10_current_next_indicator_required.1
      (mkTestPsi false 0 0 sentinelTableData)
      ⟨⟨2, 13, false⟩, some ⟨7, 3, false, 0, 0, sentinelTableData⟩⟩
      ⟨7, 3, false, 0, 0, sentinelTableData⟩
      rfl rfl rfl rfl rfl rfl rfl⟩

/-- C4: in an otherwise valid single-section PMT whose program-info-length
field has correct reserved and unused bits, a non-zero 10-bit
`program_info_length` makes `Pmt::read_from` return `Unsupported`
(`pmt.rs` line 64). -/
theorem C4_nonzero_program_info_len_unsupported
    (psi : Psi) (t : PsiTable) (s : PsiTableSyntax)
    (b0 b1 hi lo : Nat) (rest : List Nat)
    (htabs : psi.tables = [t]) (htid : t.header.table_id = 2)
    (hpriv : t.header.private_bit = false) (hsyn : t.tableSyntax = some s)
    (hsn : s.section_number = 0) (hlsn : s.last_section_number = 0)
    (hcni : s.current_next_indicator = true)
    (hdata : s.table_data = b0 :: b1 :: hi :: lo :: rest)
    (hres : (hi * 256 + lo) &&& 0xF000 = 0xF000)
    (hunused : (hi * 256 + lo) &&& 0x0C00 = 0)
    (hnz : (hi * 256 + lo) &&& 0x03FF ≠ 0) :
    Pmt.read_fromPsi psi = .error .unsupported := by
  obtain ⟨tabs⟩ := psi
  simp only at htabs
  subst htabs
  simp [Pmt.read_fromPsi, htid, hpriv, hsyn, hsn, hlsn, hcni, hdata,
    Pid.read_from, hres, hunused, hnz]

theorem C4_nonzero_program_info_len_unsupported_witness :
    (mkTestPsi true 0 0 [255, 255, 240, 5]).tables =
      [⟨⟨2, 13, false⟩, some ⟨7, 3, true, 0, 0, [255, 255, 240, 5]⟩⟩] ∧
    (240 * 256 + 5) &&& 0xF000 = 0xF000 ∧
    (240 * 256 + 5) &&& 0x0C00 = 0 ∧
    (240 * 256 + 5) &&& 0x03FF ≠ 0 ∧
    Pmt.read_fromPsi (mkTestPsi true 0 0 [255, 255, 240, 5]) =
      .error .unsupported :=
  ⟨rfl, by decide, by decide, by decide,
    C4_nonzero_program_info_len_unsupported
      (mkTestPsi true 0 0 [255, 255, 240, 5])
      ⟨⟨2, 13, false⟩, some ⟨7, 3, true, 0, 0, [255, 255, 240, 5]⟩⟩
      ⟨7, 3, true, 0, 0, [255, 255, 240, 5]⟩
      255 255 240 5 []
      rfl rfl rfl rfl rfl rfl rfl rfl (by decide) (by decide) (by decide)⟩

/-- C3: flipping any reserved or unused bit in the 16-bit
program-info-length field of an otherwise valid PMT section (`pmt.rs`
lines 50-62), or in the 16-bit ES-info-length field (`pmt.rs` lines
95-107), makes decoding fail with `InvalidInput`: any 16-bit value whose
top four bits are not all ones or whose two middle unused bits are not
zero is rejected. -/
theorem C3_reserved_bit_violation_invalid_input :
    (∀ (psi : Psi) (t : PsiTable) (s : PsiTableSyntax)
      (b0 b1 hi lo : Nat) (rest : List Nat),
      psi.tables = [t] → t.header.table_id = 2 →
      t.header.private_bit = false → t.tableSyntax = some s →
      s.section_number = 0 → s.last_section_number = 0 →
      s.current_next_indicator = true →
      s.table_data = b0 :: b1 :: hi :: lo :: rest →
      ((hi * 256 + lo) &&& 0xF000 ≠ 0xF000 ∨ (hi * 256 + lo) &&& 0x0C00 ≠ 0) →
      Pmt.read_fromPsi psi = .error .invalidInput) ∧
    (∀ (st : Nat) (stype : StreamType) (p1 p2 hi lo : Nat) (rest : List Nat),
      StreamType.from_u8 st = .ok stype →
      ((hi * 256 + lo) &&& 0xF000 ≠ 0xF000 ∨ (hi * 256 + lo) &&& 0x0C00 ≠ 0) →
      EsInfo.read_from (st :: p1 :: p2 :: hi :: lo :: rest) =
        .error .invalidInput) := by
  constructor
  · intro psi t s b0 b1 hi lo rest htabs htid hpriv hsyn hsn hlsn hcni hdata
      hviol
    obtain ⟨tabs⟩ := psi
    simp only at htabs
    subst htabs
    rcases hviol with hv | hv
    · simp [Pmt.read_fromPsi, htid, hpriv, hsyn, hsn, hlsn, hcni, hdata,
        Pid.read_from, hv]
    · by_cases h1 : (hi * 256 + lo) &&& 0xF000 = 0xF000 <;>
        simp [Pmt.read_fromPsi, htid, hpriv, hsyn, hsn, hlsn, hcni, hdata,
          Pid.read_from, h1, hv]
  · intro st stype p1 p2 hi lo rest hst hviol
    rcases hviol with hv | hv
    · simp [EsInfo.read_from, hst, Pid.read_from, hv]
    · by_cases h1 : (hi * 256 + lo) &&& 0xF000 = 0xF000 <;>
        simp [EsInfo.read_from, hst, Pid.read_from, h1, hv]

theorem C3_reserved_bit_violation_invalid_input_witness :
    ((mkTestPsi true 0 0 [255, 255, 224, 0]).tables =
      [⟨⟨2, 13, false⟩, some ⟨7, 3, true, 0, 0, [255, 255, 224, 0]⟩⟩] ∧
     ((224 * 256 + 0) &&& 0xF000 ≠ 0xF000 ∨ (224 * 256 + 0) &&& 0x0C00 ≠ 0) ∧
     Pmt.read_fromPsi (mkTestPsi true 0 0 [255, 255, 224, 0]) =
       .error .invalidInput) ∧
    (StreamType.from_u8 27 = .ok .h264 ∧
     ((244 * 256 + 0) &&& 0xF000 ≠ 0xF000 ∨ (244 * 256 + 0) &&& 0x0C00 ≠ 0) ∧
     EsInfo.read_from [27, 225, 0, 244, 0] = .error .invalidInput) :=
  ⟨⟨rfl, by decide,
    C3_reserved_bit_violation_invalid_input.1
      (mkTestPsi true 0 0 [255, 255, 224, 0])
      ⟨⟨2, 13, false⟩, some ⟨7, 3, true, 0, 0, [255, 255, 224, 0]⟩⟩
      ⟨7, 3, true, 0, 0, [255, 255, 224, 0]⟩
      255 255 224 0 []
      rfl rfl rfl rfl rfl rfl rfl rfl (by decide)⟩,
   ⟨rfl, by decide,
    C3_reserved_bit_violation_invalid_input.2
      27 .h264 225 0 244 0 [] rfl (by decide)⟩⟩

/-- C6: in `Pmt::read_from` (`pmt.rs` lines 43-48) a decoded 13-bit PCR
PID equal to the all-ones sentinel `0x1FFF` yields `pcr_pid = None` in the
resulting `Pmt`; any other parsed PID value yields `pcr_pid = Some` of
that PID. -/
theorem C6_pcr_pid_sentinel (psi : Psi) (t : PsiTable) (s : PsiTableSyntax)
    (b0 b1 : Nat) (rest : List Nat) (pmt : Pmt)
    (htabs : psi.tables = [t]) (hsyn : t.tableSyntax = some s)
    (hdata : s.table_data = b0 :: b1 :: rest)
    (h : Pmt.read_fromPsi psi = .ok pmt) :
    pmt.pcr_pid = if (b0 * 256 + b1) % 8192 = 0x1FFF then none
      else some ⟨(b0 * 256 + b1) % 8192⟩ := by
  obtain ⟨tabs⟩ := psi
  simp only at htabs
  subst htabs
  simp only [Pmt.read_fromPsi] at h
  split at h
  case isFalse => exact absurd h (by simp)
  case isTrue htid =>
  split at h
  case isTrue => exact absurd h (by simp)
  case isFalse hpriv =>
  rw [hsyn] at h
  split at h
  case h_1 => exact absurd h (by simp)
  case h_2 s1 heq =>
  have hs1 : s1 = s := by
    have heq' : some s = some s1 := heq
    injection heq' with hh
    exact hh.symm
  subst hs1
  split at h
  case isFalse => exact absurd h (by simp)
  case isTrue hsn =>
  split at h
  case isFalse => exact absurd h (by simp)
  case isTrue hlsn =>
  split at h
  case isFalse => exact absurd h (by simp)
  case isTrue hcni =>
  rw [hdata] at h
  simp only [Pid.read_from] at h
  rcases rest with _ | ⟨hi, _ | ⟨lo, rest2⟩⟩ <;> simp only [] at h
  · exact absurd h (by simp)
  · exact absurd h (by simp)
  split at h
  case isFalse => exact absurd h (by simp)
  case isTrue hres =>
  split at h
  case isFalse => exact absurd h (by simp)
  case isTrue hunused =>
  split at h
  case isFalse => exact absurd h (by simp)
  case isTrue hzero =>
  split at h
  case h_1 => exact absurd h (by simp)
  case h_2 es hes =>
  simp only [Except.ok.injEq] at h
  subst h
  rfl

theorem C6_pcr_pid_sentinel_witness :
    (mkTestPsi true 0 0 sentinelTableData).tables =
      [⟨⟨2, 13, false⟩, some ⟨7, 3, true, 0, 0, sentinelTableData⟩⟩] ∧
    (⟨⟨2, 13, false⟩, some ⟨7, 3, true, 0, 0, sentinelTableData⟩⟩ :
      PsiTable).tableSyntax = some ⟨7, 3, true, 0, 0, sentinelTableData⟩ ∧
    (⟨7, 3, true, 0, 0, sentinelTableData⟩ : PsiTableSyntax).table_data =
      255 :: 255 :: [240, 0] ∧
    Pmt.read_fromPsi (mkTestPsi true 0 0 sentinelTableData) =
      .ok ⟨7, none, 3, []⟩ ∧
    (Pmt.mk 7 none 3 []).pcr_pid =
      (if (255 * 256 + 255) % 8192 = 0x1FFF then none
        else some ⟨(255 * 256 + 255) % 8192⟩) := by
  have hsucc : Pmt.read_fromPsi (mkTestPsi true 0 0 sentinelTableData) =
      .ok ⟨7, none, 3, []⟩ := by
    have h1 : (61440 &&& 3072 : Nat) = 0 := by decide
    have h2 : (61440 &&& 1023 : Nat) = 0 := by decide
    simp [Pmt.read_fromPsi, mkTestPsi, sentinelTableData, Pid.read_from,
      readEsInfos_nil, h1, h2]
  exact ⟨rfl, rfl, rfl, hsucc,
    C6_pcr_pid_sentinel (mkTestPsi true 0 0 sentinelTableData)
      ⟨⟨2, 13, false⟩, some ⟨7, 3, true, 0, 0, sentinelTableData⟩⟩
      ⟨7, 3, true, 0, 0, sentinelTableData⟩
      255 255 [240, 0] ⟨7, none, 3, []⟩ rfl rfl rfl hsucc⟩

theorem StreamType.from_u8_unknown {st : Nat} (h : st ∉ knownStreamTypeBytes) :
    StreamType.from_u8 st = .error .invalidInput := by
  unfold StreamType.from_u8
  split <;> first
  | rfl
  | simp_all [knownStreamTypeBytes]

/-- C7: a stream-type byte that is not in the standard stream-type
registry makes `EsInfo::read_from` return `InvalidInput` (`pmt.rs`
line 92); no default stream type is ever substituted. -/
theorem C7_unknown_stream_type_invalid_input (st : Nat)
    (h : st ∉ knownStreamTypeBytes) (rest : List Nat) :
    EsInfo.read_from (st :: rest) = .error .invalidInput := by
  simp [EsInfo.read_from, StreamType.from_u8_unknown h]

theorem C7_unknown_stream_type_invalid_input_witness :
    (99 : Nat) ∉ knownStreamTypeBytes ∧
    EsInfo.read_from (99 :: [225, 0, 240, 0]) = .error .invalidInput :=
  ⟨by decide, C7_unknown_stream_type_invalid_input 99 (by decide) [225, 0, 240, 0]⟩

/-- C9: `Descriptor::read_from` (`pmt.rs` lines 134-140) with a declared
length exceeding the bytes available through the bounded reader fails with
`Truncated` and never returns a short data array; on success the data has
exactly the declared number of bytes. -/
theorem C9_descriptor_declared_length (limit tag len : Nat)
    (rest : List Nat) :
    (∀ (d : Descriptor) (tr' : TakeReader),
      Descriptor.read_from ⟨limit, tag :: len :: rest⟩ = .ok (d, tr') →
      d.tag = tag ∧ d.data = rest.take len ∧ d.data.length = len) ∧
    (2 ≤ limit → (rest.length < len ∨ limit < 2 + len) →
      Descriptor.read_from ⟨limit, tag :: len :: rest⟩ =
        .error .truncated) := by
  constructor
  · intro d tr' h
    obtain ⟨len1, rest2, hdata, hdd, hdl, -, -, -⟩ :=
      Descriptor.read_from_ok h
    simp only at hdata
    have h1 : d.tag = tag ∧ (len1 = len ∧ rest2 = rest) := by
      have := hdata.symm
      simp only [List.cons.injEq] at this
      exact this
    obtain ⟨ht, hl, hr⟩ := h1
    subst hl hr
    exact ⟨ht, hdd, hdl⟩
  · intro h2 hor
    obtain ⟨m, rfl⟩ : ∃ m, limit = m + 2 := ⟨limit - 2, by omega⟩
    simp only [Descriptor.read_from, TakeReader.readU8, TakeReader.readExact]
    rw [if_neg (by rintro ⟨a, b⟩; omega)]

theorem C9_descriptor_declared_length_witness :
    (∀ (d : Descriptor) (tr' : TakeReader),
      Descriptor.read_from ⟨10, 9 :: 4 :: [1, 2]⟩ = .ok (d, tr') →
      d.tag = 9 ∧ d.data = [1, 2].take 4 ∧ d.data.length = 4) ∧
    (2 ≤ 10 → ([1, 2].length < 4 ∨ 10 < 2 + 4) →
      Descriptor.read_from ⟨10, 9 :: 4 :: [1, 2]⟩ = .error .truncated) ∧
    Descriptor.read_from ⟨10, 9 :: 4 :: [1, 2]⟩ = .error .truncated :=
  ⟨(C9_descriptor_declared_length 10 9 4 [1, 2]).1,
   (C9_descriptor_declared_length 10 9 4 [1, 2]).2,
   (C9_descriptor_declared_length 10 9 4 [1, 2]).2 (by decide)
     (Or.inl (by decide))⟩

/-- C8: `EsInfo::read_from` (`pmt.rs` lines 110-116) consumes descriptors
until exactly the 10-bit ES-info length has been used: on success the
descriptors account for exactly that many bytes and exactly that many
bytes of the remaining input are consumed; if the bound exceeds the bytes
available, the call fails with `Truncated` instead of succeeding. -/
theorem C8_es_info_exact_consumption (st : Nat) (stype : StreamType)
    (p1 p2 hi lo : Nat) (rest : List Nat)
    (hst : StreamType.from_u8 st = .ok stype)
    (hres : (hi * 256 + lo) &&& 0xF000 = 0xF000)
    (hunused : (hi * 256 + lo) &&& 0x0C00 = 0) :
    (∀ (e : EsInfo) (rest' : List Nat),
      EsInfo.read_from (st :: p1 :: p2 :: hi :: lo :: rest) = .ok (e, rest') →
      (hi * 256 + lo) &&& 0x03FF ≤ rest.length ∧
      rest' = rest.drop ((hi * 256 + lo) &&& 0x03FF) ∧
      (e.descriptors.map descriptorSize).sum = (hi * 256 + lo) &&& 0x03FF) ∧
    (rest.length < (hi * 256 + lo) &&& 0x03FF →
      EsInfo.read_from (st :: p1 :: p2 :: hi :: lo :: rest) =
        .error .truncated) := by
  constructor
  · intro e rest' h
    simp only [EsInfo.read_from, hst, Pid.read_from, hres, hunused,
      if_true] at h
    split at h
    case h_1 => exact absurd h (by simp)
    case h_2 ds tr' hds =>
    simp only [Except.ok.injEq, Prod.mk.injEq] at h
    obtain ⟨rfl, rfl⟩ := h
    obtain ⟨-, h2, h3, h4⟩ := readDescriptors_ok hds
    simp only at h2 h3 h4
    exact ⟨h2, h3, h4⟩
  · intro hlt
    simp only [EsInfo.read_from, hst, Pid.read_from, hres, hunused, if_true]
    rw [readDescriptors_deficit (by simpa using hlt)]

theorem C8_es_info_exact_consumption_witness :
    StreamType.from_u8 27 = .ok .h264 ∧
    (240 * 256 + 3) &&& 0xF000 = 0xF000 ∧
    (240 * 256 + 3) &&& 0x0C00 = 0 ∧
    ((∀ (e : EsInfo) (rest' : List Nat),
      EsInfo.read_from (27 :: 225 :: 0 :: 240 :: 3 :: [9, 1, 5]) =
        .ok (e, rest') →
      (240 * 256 + 3) &&& 0x03FF ≤ [9, 1, 5].length ∧
      rest' = [9, 1, 5].drop ((240 * 256 + 3) &&& 0x03FF) ∧
      (e.descriptors.map descriptorSize).sum = (240 * 256 + 3) &&& 0x03FF) ∧
    ([9, 1, 5].length < (240 * 256 + 3) &&& 0x03FF →
      EsInfo.read_from (27 :: 225 :: 0 :: 240 :: 3 :: [9, 1, 5]) =
        .error .truncated)) :=
  ⟨rfl, by decide, by decide,
    C8_es_info_exact_consumption 27 .h264 225 0 240 3 [9, 1, 5]
      rfl (by decide) (by decide)⟩

theorem crc32Round_lt (c : Nat) : crc32Round c < 4294967296 := by
  unfold crc32Round
  split
  · have h1 : (c * 2) % 4294967296 < 2 ^ 32 := by
      have := Nat.mod_lt (c * 2) (show 0 < 4294967296 by norm_num)
      omega
    have h2 : (0x04C11DB7 : Nat) < 2 ^ 32 := by norm_num
    have h3 := Nat.xor_lt_two_pow h1 h2
    omega
  · exact Nat.mod_lt _ (by norm_num)

theorem crc32Byte_lt (c b : Nat) : crc32Byte c b < 4294967296 := by
  unfold crc32Byte
  rw [show (8 : Nat) = 7 + 1 from rfl, Function.iterate_succ_apply']
  exact crc32Round_lt _

theorem mpegCrc32_lt (l : List Nat) : mpegCrc32 l < 4294967296 := by
  unfold mpegCrc32
  have : ∀ (l1 : List Nat) (acc : Nat), acc < 4294967296 →
      List.foldl crc32Byte acc l1 < 4294967296 := by
    intro l1
    induction l1 with
    | nil => intro acc h; simpa using h
    | cons b t ih =>
      intro acc h
      simp only [List.foldl_cons]
      exact ih _ (crc32Byte_lt _ _)
  exact this l _ (by norm_num)

theorem crc4_recombine {c : Nat} (h : c < 4294967296) :
    ((c / 16777216 % 256 * 256 + c / 65536 % 256) * 256 + c / 256 % 256) *
      256 + c % 256 = c := by omega

/-- Byte content, before the CRC, of the minimal valid single-section PMT
of claim C2: table id 2, section length 18, program number 1, version `v`,
current-next indicator set, section and last-section number 0, the PCR-PID
all-ones sentinel, a zero program-info length with correct reserved bits,
and one ES entry with stream-type byte `st`, elementary PID `p` and an
empty descriptor list. -/
def minimalPmtContent (st p v : Nat) : List Nat :=
  [2, 176, 18, 0, 1, 193 + 2 * v, 0, 0,
   255, 255, 240, 0, st, 224 + p / 256, p % 256, 240, 0]

/-- The minimal valid single-section PMT encoding of claim C2, with its
correct trailing CRC. -/
def encodeMinimalPmt (st p v : Nat) : List Nat :=
  withCrc (minimalPmtContent st p v)

theorem readSection_minimal (st p v : Nat) (hv : v < 32) :
    readSection (encodeMinimalPmt st p v) =
      .ok (⟨⟨2, 18, false⟩, some ⟨1, v, true, 0, 0,
        [255, 255, 240, 0, st, 224 + p / 256, p % 256, 240, 0]⟩⟩, []) := by
  have hb5a : (193 + 2 * v) / 64 = 3 := by omega
  have hb5v : (193 + 2 * v) / 2 % 32 = v := by omega
  have hb5c : ((193 + 2 * v) % 2 == 1) = true := by
    have h2 : (193 + 2 * v) % 2 = 1 := by omega
    simp [h2]
  simp only [encodeMinimalPmt, withCrc, minimalPmtContent, crc4,
    List.cons_append, List.nil_append]
  simp [readSection, hb5a, hb5v, hb5c]
  exact (crc4_recombine (mpegCrc32_lt _)).symm

/-- C2: decoding the minimal valid single-section PMT encoding
(program number 1, PCR PID absent via the all-ones sentinel, exactly one
`EsInfo` with a known stream type and a valid PID, zero descriptors, zero
program-info length, section number 0, last section number 0, current-next
indicator set, correct CRC) succeeds and returns exactly the constructed
program number, PCR PID, version number and `EsInfo` list. -/
theorem C2_minimal_pmt_roundtrip (st p v : Nat) (stype : StreamType)
    (hst : StreamType.from_u8 st = .ok stype) (hp : p < 8192) (hv : v < 32) :
    Pmt.read_from (encodeMinimalPmt st p v) =
      .ok ⟨1, none, v, [⟨stype, ⟨p⟩, []⟩]⟩ := by
  have hsec := readSection_minimal st p v hv
  have htab := readTables_ok_single hsec
  have hpid : ((224 + p / 256) * 256 + p % 256) % 8192 = p := by omega
  have h1 : (61440 &&& 3072 : Nat) = 0 := by decide
  have h2 : (61440 &&& 1023 : Nat) = 0 := by decide
  have hes : EsInfo.read_from [st, 224 + p / 256, p % 256, 240, 0] =
      .ok (⟨stype, ⟨p⟩, []⟩, []) := by
    simp [EsInfo.read_from, hst, Pid.read_from, readDescriptors_zero, hpid,
      h1, h2]
  have hesl : readEsInfos [st, 224 + p / 256, p % 256, 240, 0] =
      .ok [⟨stype, ⟨p⟩, []⟩] := readEsInfos_cons_ok hes readEsInfos_nil
  simp only [Pmt.read_from, Psi.read_from, htab]
  simp [Pmt.read_fromPsi, Pid.read_from, hesl, h1, h2]

theorem C2_minimal_pmt_roundtrip_witness :
    StreamType.from_u8 27 = .ok .h264 ∧ 256 < 8192 ∧ 5 < 32 ∧
    Pmt.read_from (encodeMinimalPmt 27 256 5) =
      .ok ⟨1, none, 5, [⟨.h264, ⟨256⟩, []⟩]⟩ :=
  ⟨rfl, by decide, by decide,
    C2_minimal_pmt_roundtrip 27 256 5 .h264 rfl (by decide) (by decide)⟩
